import Mathlib

namespace Nomic

/-! Shallow embedding of src/chain/chain/src/state_machine.rs, the core
bitcoin peg state machine of the nomic chain.

Machine integers (u64) are modelled on Nat with explicit reduction modulo
2 ^ 64 exactly where the Rust code performs unchecked arithmetic; Rust
release-profile wrapping semantics is used for such arithmetic.  External
cryptographic primitives and library calls that are out of scope of the core
(SHA-256, secp256k1 key parsing and signature checking, the signatory-set
output script derivation, bitcoin txids and block hashes, partial merkle tree
extraction) are abstracted: hash and txid values are carried as data fields,
signature validity is a boolean field of the transaction, and the delegated
functions are collected in an Env record over which all results are proved. -/

def U64MOD : Nat := 2 ^ 64

/-- Wrapping reduction of an unchecked u64 computation. -/
def wrap (n : Nat) : Nat := n % U64MOD

/-- Wrapping u64 subtraction. -/
def wsub (a b : Nat) : Nat := (a % U64MOD + U64MOD - b % U64MOD) % U64MOD

def MIN_WORK : Nat := 2 ^ 20

def SIGNATORY_CHANGE_INTERVAL : Nat := 60 * 60 * 24 * 7

/-- Addresses are 33-byte compressed public keys; bytes are modelled as Nat. -/
abbrev Address := List Nat

structure Account where
  balance : Nat := 0
  nonce : Nat := 0
deriving DecidableEq

structure SignatorySetSnapshot where
  time : Nat
  signatories : List (Address × Nat)
deriving DecidableEq

structure Withdrawal where
  value : Nat
  script : List Nat
deriving DecidableEq

structure Utxo where
  txid : Nat
  vout : Nat
  signatory_set_index : Nat
  data : List Nat
deriving DecidableEq

/-- Bitcoin block header; only the fields the core consumes are modelled, and
the block hash (an external double-SHA-256) is carried as a data field. -/
structure BtcHeader where
  prev_blockhash : Nat
  merkle_root : Nat
  hashVal : Nat
deriving DecidableEq

structure EnrichedHeader where
  header : BtcHeader
  height : Nat
deriving DecidableEq

structure TxOut where
  value : Nat
  script_pubkey : List Nat
deriving DecidableEq

/-- Bitcoin transaction; the txid (external double-SHA-256 of the canonical
encoding) is carried as a data field. -/
structure BitcoinTx where
  txid : Nat
  output : List TxOut
deriving DecidableEq

/-- Partial merkle tree, abstracted to the result of extract_matches: the
computed root and whether extraction succeeds. -/
structure MerkleProof where
  root : Nat
  ok : Bool
deriving DecidableEq

/-- The portion of the key-value store owned by the state machine, following
the State struct plus the header cache that shares the same store.  The
finalized_checkpoint and active_checkpoint slots are never read or written by
any handler and are omitted. -/
structure ChainState where
  accounts : List (Address × Account) := []
  redeemed_work_hashes : List Nat := []
  signatory_sets : List SignatorySetSnapshot := []
  processed_deposit_txids : List Nat := []
  pending_withdrawals : List Withdrawal := []
  utxos : List Utxo := []
  headers : List EnrichedHeader := []
deriving DecidableEq

abbrev Validators := List (Address × Nat)

/-- External delegated functions: the SHA-256 of public key and big-endian
nonce, compressed-point parse success, and the signatory output script. -/
structure Env where
  hashFn : List Nat → Nat → Nat
  parsePubkey : List Nat → Bool
  outputScript : List (Address × Nat) → List Nat → List Nat

/-- Handler outcome: success, bail with a message, or a Rust panic. -/
inductive Res where
  | ok
  | err (msg : String)
  | crash
deriving DecidableEq

/-- Association-list lookup, modelling Map.get. -/
def alookup {β : Type} : List (List Nat × β) → List Nat → Option β
  | [], _ => none
  | (k, v) :: t, a => if k = a then some v else alookup t a

/-- Association-list insert/replace, modelling Map.insert. -/
def ainsert {β : Type} : List (List Nat × β) → List Nat → β → List (List Nat × β)
  | [], a, b => [(a, b)]
  | (k, v) :: t, a, b => if k = a then (a, b) :: t else (k, v) :: ainsert t a b

/-- Set insert, modelling Set.insert (membership is all that matters). -/
def sinsert (l : List Nat) (a : Nat) : List Nat :=
  if l.contains a then l else l ++ [a]

/-- Embedding of unsafe_slice_to_address: copy_from_slice into the 33-byte
buffer panics unless the slice length is exactly 33; none models the panic.
(The source comment mentions length 32, but the buffer is 33 bytes.) -/
def slice_to_address (slice : List Nat) : Option Address :=
  if slice.length = 33 then some slice else none

/-- Modelled from the spec: the nomic_work::work estimator (its crate is not
under src/).  Interpret the 256-bit hash as an integer H and return
floor((2 ^ 256 - 1) / (H + 1)) truncated to u64::MAX. -/
def work (h : Nat) : Nat := min (U64MOD - 1) ((2 ^ 256 - 1) / (h + 1))

structure WorkProofTransaction where
  public_key : List Nat
  nonce : Nat
deriving DecidableEq

structure HeaderTransaction where
  block_headers : List BtcHeader
deriving DecidableEq

structure DepositTransaction where
  height : Nat
  proof : MerkleProof
  tx : BitcoinTx
  block_index : Nat
  recipients : List (List Nat)
deriving DecidableEq

structure TransferTransaction where
  from_ : List Nat
  to_ : List Nat
  amount : Nat
  fee_amount : Nat
  nonce : Nat
  sigOk : Bool
deriving DecidableEq

structure WithdrawalTransaction where
  from_ : List Nat
  to_ : List Nat
  amount : Nat
  nonce : Nat
  sigOk : Bool
deriving DecidableEq

structure SignatureTransaction where
deriving DecidableEq

inductive Transaction where
  | WorkProof (tx : WorkProofTransaction)
  | Header (tx : HeaderTransaction)
  | Deposit (tx : DepositTransaction)
  | Transfer (tx : TransferTransaction)
  | Withdrawal (tx : WithdrawalTransaction)
  | Signature (tx : SignatureTransaction)
deriving DecidableEq

/-- The action envelope; a begin-block header is consumed only through
get_time().get_seconds() as u64, so it is modelled by that number. -/
inductive Action where
  | BeginBlock (time : Nat)
  | Transaction (tx : Transaction)
deriving DecidableEq

def isHeaderTx : Action → Bool
  | .Transaction (.Header _) => true
  | _ => false

/-- Modelled from the spec: SignatorySet.set (the signatory-set crate is not
under src/) inserts a signatory, replacing any one with the same key. -/
def sigset_set (s : List (Address × Nat)) (pk : Address) (power : Nat) :
    List (Address × Nat) :=
  ainsert s pk power

/-- Embedding of signatories_from_validators: fold over the validator map in
order, failing on the first key that does not parse as a compressed point. -/
def sigsetBuild (env : Env) :
    List (Address × Nat) → Validators → Except String (List (Address × Nat))
  | acc, [] => Except.ok acc
  | acc, (k, p) :: rest =>
    if env.parsePubkey k then sigsetBuild env (sigset_set acc k p) rest
    else Except.error "invalid validator public key"

def signatories_from_validators (env : Env) (validators : Validators) :
    Except String (List (Address × Nat)) :=
  sigsetBuild env [] validators

/-- Embedding of handle_begin_block.  now is the header time cast to u64;
elapsed is the unchecked u64 subtraction now - last.time. -/
def handle_begin_block (env : Env) (st : ChainState) (validators : Validators)
    (header_time : Nat) : ChainState × Res :=
  let now := wrap header_time
  match st.signatory_sets.getLast? with
  | none =>
    match signatories_from_validators env validators with
    | .error e => (st, .err e)
    | .ok sigs =>
      ({ st with signatory_sets := st.signatory_sets ++ [⟨now, sigs⟩] }, .ok)
  | some last =>
    let elapsed := wsub now last.time
    if SIGNATORY_CHANGE_INTERVAL ≤ elapsed then
      match signatories_from_validators env validators with
      | .error e => (st, .err e)
      | .ok sigs =>
        ({ st with signatory_sets := st.signatory_sets ++ [⟨now, sigs⟩] }, .ok)
    else (st, .ok)

/-- Embedding of handle_work_proof_tx.  The voting-power grant is the
unchecked u64 addition current_voting_power + work_proof_value. -/
def handle_work_proof_tx (env : Env) (st : ChainState) (validators : Validators)
    (tx : WorkProofTransaction) : ChainState × Validators × Res :=
  let hash := env.hashFn tx.public_key tx.nonce
  let work_proof_value := work hash
  if work_proof_value < MIN_WORK then
    (st, validators, .err "Proof has less than minimum work value")
  else if st.redeemed_work_hashes.contains hash then
    (st, validators, .err "Work proof has already been redeemed")
  else
    let current_voting_power := (alookup validators tx.public_key).getD 0
    ({ st with redeemed_work_hashes := sinsert st.redeemed_work_hashes hash },
     ainsert validators tx.public_key (wrap (current_voting_power + work_proof_value)),
     .ok)

/-- Modelled from the spec: HeaderCache.add_header (src/spv/headercache.rs is
not under src/).  It validates chain linkage of the new header against the
tip (hashes are data fields, SHA-256 being external) and appends it at the
next height; a header that does not connect fails the call. -/
def add_header (cache : List EnrichedHeader) (h : BtcHeader) :
    Except String (List EnrichedHeader) :=
  match cache.getLast? with
  | none => .error "header cache is empty"
  | some tip =>
    if h.prev_blockhash = tip.header.hashVal then
      .ok (cache ++ [⟨h, tip.height + 1⟩])
    else .error "header does not connect"

/-- Embedding of the loop in handle_header_tx: headers are added one by one
and the first failure aborts, keeping the headers already added. -/
def addHeaders (cache : List EnrichedHeader) :
    List BtcHeader → List EnrichedHeader × Res
  | [] => (cache, .ok)
  | h :: rest =>
    match add_header cache h with
    | .error e => (cache, .err e)
    | .ok cache' => addHeaders cache' rest

/-- Modelled from the spec: HeaderCache.get_header_for_height returns the
stored header at the given height, if any. -/
def get_header_for_height (cache : List EnrichedHeader) (height : Nat) :
    Option EnrichedHeader :=
  cache.find? (fun e => e.height == height)

/-- PartialMerkleTree.extract_matches (external rust-bitcoin), abstracted:
the proof carries its computed merkle root and whether extraction succeeds. -/
def extract_matches (proof : MerkleProof) : Except String Nat :=
  if proof.ok then .ok proof.root else .error "merkle proof extraction failed"

/-- Embedding of the inner signatory-set scan of one deposit output: find the
first snapshot (insertion order, with index) whose output script for the
peeked recipient equals the output script_pubkey; on a match mint the value
to the recipient account, append a Utxo and stop.  none models the panic of
unsafe_slice_to_address. -/
def scanSets (env : Env) (txid vout value : Nat) (script_pubkey : List Nat)
    (recipient : List Nat) :
    List (Nat × SignatorySetSnapshot) → List (Address × Account) → List Utxo →
      Option (List (Address × Account) × List Utxo × Bool)
  | [], accounts, utxos => some (accounts, utxos, false)
  | (idx, snap) :: rest, accounts, utxos =>
    if script_pubkey ≠ env.outputScript snap.signatories recipient then
      scanSets env txid vout value script_pubkey recipient rest accounts utxos
    else
      match slice_to_address recipient with
      | none => none
      | some addr =>
        let acct := (alookup accounts addr).getD {}
        let acct' := { acct with balance := wrap (acct.balance + value) }
        some (ainsert accounts addr acct', utxos ++ [⟨txid, vout, idx, recipient⟩], true)

/-- Embedding of the output loop of handle_deposit_tx.  The recipients
iterator is peekable and only ever peeked (head?), never advanced. -/
def depositLoop (env : Env) (sets : List SignatorySetSnapshot) (txid : Nat)
    (recipients : List (List Nat)) :
    List TxOut → Nat → List (Address × Account) → List Utxo → Bool →
      List (Address × Account) × List Utxo × Bool × Res
  | [], _, accounts, utxos, flag => (accounts, utxos, flag, Res.ok)
  | txout :: rest, i, accounts, utxos, flag =>
    match recipients.head? with
    | none => (accounts, utxos, flag, Res.err "Consumed all recipients")
    | some recipient =>
      if recipient.length ≠ 33 then
        (accounts, utxos, flag, Res.err "Recipient must be 33 bytes")
      else
        match scanSets env txid i txout.value txout.script_pubkey recipient
            sets.enum accounts utxos with
        | none => (accounts, utxos, flag, Res.crash)
        | some (accounts', utxos', matched) =>
          depositLoop env sets txid recipients rest (i + 1) accounts' utxos'
            (matched || flag)

/-- Commit stage of handle_deposit_tx: after the output loop, fail when no
deposit output was found, otherwise record the txid as processed. -/
def depositCommit (st : ChainState) (txid : Nat)
    (r : List (Address × Account) × List Utxo × Bool × Res) : ChainState × Res :=
  match r with
  | (accounts', utxos', flag, Res.ok) =>
    if flag then
      ({ st with
          accounts := accounts', utxos := utxos',
          processed_deposit_txids :=
            sinsert st.processed_deposit_txids txid }, Res.ok)
    else
      ({ st with accounts := accounts', utxos := utxos' },
       Res.err "Transaction does not contain any deposit outputs")
  | (accounts', utxos', _, r) =>
    ({ st with accounts := accounts', utxos := utxos' }, r)

/-- Embedding of handle_deposit_tx. -/
def handle_deposit_tx (env : Env) (st : ChainState)
    (dtx : DepositTransaction) : ChainState × Res :=
  let txid := dtx.tx.txid
  if st.processed_deposit_txids.contains txid then
    (st, .err "Transaction was already processed")
  else
    match get_header_for_height st.headers dtx.height with
    | none => (st, .err "Merkle root not found for deposit transaction")
    | some hdr =>
      match extract_matches dtx.proof with
      | .error msg => (st, .err msg)
      | .ok proof_root =>
        if proof_root ≠ hdr.header.merkle_root then
          (st, .err "Proof merkle root does not match chain")
        else
          depositCommit st txid (depositLoop env st.signatory_sets txid
            dtx.recipients dtx.tx.output 0 st.accounts st.utxos false)

/-- Embedding of handle_transfer_tx.  The unchecked u64 sum amount +
fee_amount is wrapped; the sender debit cannot underflow because of the
balance check. -/
def handle_transfer_tx (st : ChainState) (tx : TransferTransaction) :
    ChainState × Res :=
  if tx.from_ = tx.to_ then (st, .err "Account cannot send to itself")
  else if tx.fee_amount < 1000 then (st, .err "Transaction fee is too small")
  else if tx.from_.length ≠ 33 then (st, .err "Invalid sender address")
  else if tx.to_.length ≠ 33 then (st, .err "Invalid recipient address")
  else
    match slice_to_address tx.from_ with
    | none => (st, Res.crash)
    | some fromAddr =>
      match alookup st.accounts fromAddr with
      | none => (st, .err "Account does not exist")
      | some sender =>
        if sender.balance < wrap (tx.amount + tx.fee_amount) then
          (st, .err "Insufficient balance in sender account")
        else if tx.nonce ≠ sender.nonce then
          (st, .err "Invalid account nonce for transaction")
        else if !tx.sigOk then (st, .err "Invalid signature")
        else
          let sender' : Account :=
            { balance := sender.balance - wrap (tx.amount + tx.fee_amount),
              nonce := wrap (sender.nonce + 1) }
          match slice_to_address tx.to_ with
          | none => (st, Res.crash)
          | some toAddr =>
            let recipient := (alookup st.accounts toAddr).getD {}
            let recipient' :=
              { recipient with balance := wrap (recipient.balance + tx.amount) }
            match slice_to_address tx.from_ with
            | none => (st, Res.crash)
            | some fromAddr2 =>
              match slice_to_address tx.to_ with
              | none => (st, Res.crash)
              | some toAddr2 =>
                ({ st with accounts :=
                    ainsert (ainsert st.accounts fromAddr2 sender') toAddr2 recipient' },
                 Res.ok)

/-- Embedding of handle_withdrawal_tx. -/
def handle_withdrawal_tx (st : ChainState) (tx : WithdrawalTransaction) :
    ChainState × Res :=
  if tx.from_.length ≠ 33 then (st, .err "Invalid sender address")
  else
    match slice_to_address tx.from_ with
    | none => (st, Res.crash)
    | some fromAddr =>
      match alookup st.accounts fromAddr with
      | none => (st, .err "Account does not exist")
      | some sender =>
        if sender.balance < tx.amount then
          (st, .err "Insufficient balance in sender account")
        else if tx.nonce ≠ sender.nonce then
          (st, .err "Invalid account nonce for withdrawal transaction")
        else if !tx.sigOk then (st, .err "Invalid signature")
        else
          let sender' : Account :=
            { balance := sender.balance - tx.amount,
              nonce := wrap (sender.nonce + 1) }
          match slice_to_address tx.from_ with
          | none => (st, Res.crash)
          | some fromAddr2 =>
            ({ st with
                accounts := ainsert st.accounts fromAddr2 sender',
                pending_withdrawals :=
                  st.pending_withdrawals ++ [⟨tx.amount, tx.to_⟩] }, Res.ok)

/-- Embedding of run, the dispatcher. -/
def run (env : Env) (st : ChainState) (action : Action)
    (validators : Validators) : ChainState × Validators × Res :=
  match action with
  | .BeginBlock t =>
    let r := handle_begin_block env st validators t
    (r.1, validators, r.2)
  | .Transaction tx =>
    match tx with
    | .WorkProof t => handle_work_proof_tx env st validators t
    | .Header t =>
      let r := addHeaders st.headers t.block_headers
      ({ st with headers := r.1 }, validators, r.2)
    | .Deposit t =>
      let r := handle_deposit_tx env st t
      (r.1, validators, r.2)
    | .Transfer t =>
      let r := handle_transfer_tx st t
      (r.1, validators, r.2)
    | .Withdrawal t =>
      let r := handle_withdrawal_tx st t
      (r.1, validators, r.2)
    | .Signature _ => (st, validators, .err "Unimplemented transaction type")

/-- Genesis store: everything empty except the SPV trust-anchor headers
loaded by initialize. -/
def genesisState (anchor : List EnrichedHeader) : ChainState :=
  { headers := anchor }

/-- States reachable from genesis by successfully applied actions. -/
inductive Reachable (env : Env) : ChainState → Validators → Prop where
  | genesis (anchor : List EnrichedHeader) (v0 : Validators) :
      Reachable env (genesisState anchor) v0
  | step (st : ChainState) (v : Validators) (a : Action) (st' : ChainState)
      (v' : Validators) : Reachable env st v →
      run env st a v = (st', v', Res.ok) → Reachable env st' v'

/-- Time of the most recent signatory snapshot (0 when there is none). -/
def lastSnapTime (st : ChainState) : Nat :=
  ((st.signatory_sets.getLast?).map (fun s => s.time)).getD 0

/-- An action respects block-time monotonicity: a BeginBlock may not carry a
u64 time earlier than the last snapshot. -/
def monoOk (st : ChainState) : Action → Prop
  | .BeginBlock t => st.signatory_sets = [] ∨ lastSnapTime st ≤ wrap t
  | _ => True

/-- States reachable from genesis by successfully applied actions whose
BeginBlock times never regress below the last snapshot time. -/
inductive ReachableMono (env : Env) : ChainState → Validators → Prop where
  | genesis (anchor : List EnrichedHeader) (v0 : Validators) :
      ReachableMono env (genesisState anchor) v0
  | step (st : ChainState) (v : Validators) (a : Action) (st' : ChainState)
      (v' : Validators) : ReachableMono env st v → monoOk st a →
      run env st a v = (st', v', Res.ok) → ReachableMono env st' v'

/-- A concrete environment used for witnesses and counterexamples. -/
def envCE : Env := ⟨fun _ _ => 0, fun _ => true, fun _ _ => []⟩

/-- A concrete 33-byte address. -/
def addrA : Address := List.replicate 33 1

/-- A second concrete 33-byte address. -/
def addrB : Address := List.replicate 33 2

/-- Store with one funded account, for the overflow transfer. -/
def stOverflow : ChainState := { accounts := [(addrA, ⟨5, 0⟩)] }

/-- Transfer whose amount + fee_amount overflows u64 (sum is 2 ^ 64). -/
def txOverflow : TransferTransaction := ⟨addrA, addrB, 2 ^ 63, 2 ^ 63, 0, true⟩

/-- Header-cache trust anchor with block hash 5 at height 0. -/
def anchorCE : List EnrichedHeader := [⟨⟨0, 0, 5⟩, 0⟩]

/-- Header transaction whose first header connects to the anchor and whose
second header does not. -/
def headerTxCE : HeaderTransaction := ⟨[⟨5, 0, 6⟩, ⟨99, 0, 7⟩]⟩

/-- Store with one header at height 0 whose merkle root is 7. -/
def stDepCE : ChainState := { headers := [⟨⟨0, 7, 5⟩, 0⟩] }

/-- Deposit with one output and an empty recipients list, passing the replay,
header and merkle checks. -/
def dtxConsumedCE : DepositTransaction := ⟨0, ⟨7, true⟩, ⟨42, [⟨100, [9]⟩]⟩, 0, []⟩

/-- Deposit with zero outputs, passing the replay, header and merkle checks. -/
def dtxNoOutCE : DepositTransaction := ⟨0, ⟨7, true⟩, ⟨42, []⟩, 0, [[1, 2]]⟩

/-- Store with a 1234-balance account for the happy-path scenarios. -/
def stHappy : ChainState := { accounts := [(addrA, ⟨1234, 0⟩)] }

/-- The S4 happy-path transfer. -/
def txHappy : TransferTransaction := ⟨addrA, addrB, 100, 1000, 0, true⟩

/-- The S5 happy-path withdrawal. -/
def wtxHappy : WithdrawalTransaction := ⟨addrA, [123], 1000, 0, true⟩

/-- A concrete work proof. -/
def wptxCE : WorkProofTransaction := ⟨[1], 0⟩

/-- A transfer that fails its fee check. -/
def txFeeFail : TransferTransaction := ⟨[1], [2], 0, 0, 0, true⟩

/-- A deposit that fails header lookup (empty header cache). -/
def dtxHdrFail : DepositTransaction := ⟨0, ⟨7, true⟩, ⟨42, []⟩, 0, []⟩

/-! Helper lemmas about the container model and u64 arithmetic. -/

theorem alookup_ainsert_self {β : Type} (l : List (List Nat × β)) (k : List Nat)
    (v : β) : alookup (ainsert l k v) k = some v := by
  induction l with
  | nil => simp [ainsert, alookup]
  | cons p t ih =>
    obtain ⟨k', v'⟩ := p
    by_cases hk : k' = k
    · simp [ainsert, alookup, hk]
    · simp [ainsert, alookup, hk, ih]

theorem alookup_ainsert_ne {β : Type} (l : List (List Nat × β)) (k a : List Nat)
    (v : β) (h : a ≠ k) : alookup (ainsert l k v) a = alookup l a := by
  induction l with
  | nil =>
    simp only [ainsert, alookup]
    rw [if_neg (fun hh => h hh.symm)]
  | cons p t ih =>
    obtain ⟨k', v'⟩ := p
    by_cases hk : k' = k
    · subst hk
      simp only [ainsert, if_pos rfl, alookup]
      rw [if_neg (fun hh => h hh.symm), if_neg (fun hh => h hh.symm)]
    · by_cases hka : k' = a <;> simp [ainsert, alookup, hk, hka, h, ih]

theorem contains_sinsert_self (l : List Nat) (a : Nat) :
    (sinsert l a).contains a = true := by
  unfold sinsert
  by_cases h : l.contains a = true
  · rw [if_pos h]
    exact h
  · rw [if_neg h]
    simp

theorem contains_of_contains_sinsert (l : List Nat) (a x : Nat)
    (h : (sinsert l a).contains x = true) : l.contains x = true ∨ x = a := by
  unfold sinsert at h
  by_cases hc : l.contains a = true
  · rw [if_pos hc] at h
    exact Or.inl h
  · rw [if_neg hc] at h
    simp at h
    simpa using h

theorem slice_to_address_len (l : List Nat) (h : l.length = 33) :
    slice_to_address l = some l := by
  simp [slice_to_address, h]

theorem wrap_lt (n : Nat) : wrap n < U64MOD :=
  Nat.mod_lt _ (by simp [U64MOD])

theorem wrap_eq_of_lt {n : Nat} (h : n < U64MOD) : wrap n = n :=
  Nat.mod_eq_of_lt h

theorem wsub_eq_sub {a b : Nat} (ha : a < U64MOD) (hb : b < U64MOD)
    (hle : b ≤ a) : wsub a b = a - b := by
  unfold wsub
  rw [Nat.mod_eq_of_lt ha, Nat.mod_eq_of_lt hb]
  have h2 : a + U64MOD - b = (a - b) + U64MOD := by omega
  rw [h2, Nat.add_mod_right, Nat.mod_eq_of_lt (by omega)]

theorem mem_of_getLast?_eq {α : Type} {l : List α} {a : α}
    (h : l.getLast? = some a) : a ∈ l := by
  obtain ⟨hne, heq⟩ :=
    List.mem_getLast?_eq_getLast (l := l) (x := a) (Option.mem_def.mpr h)
  rw [heq]
  exact List.getLast_mem hne

/-! Lemmas about the deposit output loop. -/

theorem scanSets_ne_none (env : Env) (txid vout value : Nat) (spk : List Nat)
    (recipient : List Nat) (hl : recipient.length = 33) :
    ∀ (sets : List (Nat × SignatorySetSnapshot))
      (accounts : List (Address × Account)) (utxos : List Utxo),
      scanSets env txid vout value spk recipient sets accounts utxos ≠ none := by
  intro sets
  induction sets with
  | nil =>
    intro accounts utxos
    simp [scanSets]
  | cons p rest ih =>
    intro accounts utxos
    obtain ⟨idx, snap⟩ := p
    simp only [scanSets]
    by_cases hm : spk ≠ env.outputScript snap.signatories recipient
    · rw [if_pos hm]
      exact ih accounts utxos
    · rw [if_neg hm, slice_to_address_len recipient hl]
      simp

theorem scanSets_unmatched (env : Env) (txid vout value : Nat) (spk : List Nat)
    (recipient : List Nat) :
    ∀ (sets : List (Nat × SignatorySetSnapshot))
      (accounts : List (Address × Account)) (utxos : List Utxo)
      (a' : List (Address × Account)) (u' : List Utxo),
      scanSets env txid vout value spk recipient sets accounts utxos
        = some (a', u', false) → a' = accounts ∧ u' = utxos := by
  intro sets
  induction sets with
  | nil =>
    intro accounts utxos a' u' h
    simp only [scanSets, Option.some.injEq, Prod.mk.injEq] at h
    exact ⟨h.1.symm, h.2.1.symm⟩
  | cons p rest ih =>
    intro accounts utxos a' u' h
    obtain ⟨idx, snap⟩ := p
    simp only [scanSets] at h
    by_cases hm : spk ≠ env.outputScript snap.signatories recipient
    · rw [if_pos hm] at h
      exact ih accounts utxos a' u' h
    · rw [if_neg hm] at h
      cases hsl : slice_to_address recipient with
      | none =>
        rw [hsl] at h
        cases h
      | some addr =>
        rw [hsl] at h
        simp at h

theorem depositLoop_head (env : Env) (sets : List SignatorySetSnapshot)
    (txid : Nat) (r : List Nat) (rest : List (List Nat)) :
    ∀ (outs : List TxOut) (i : Nat) (accounts : List (Address × Account))
      (utxos : List Utxo) (flag : Bool),
      depositLoop env sets txid (r :: rest) outs i accounts utxos flag
        = depositLoop env sets txid [r] outs i accounts utxos flag := by
  intro outs
  induction outs with
  | nil =>
    intro i a u f
    rfl
  | cons t ts ih =>
    intro i a u f
    simp only [depositLoop, List.head?]
    by_cases hl : r.length ≠ 33
    · rw [if_pos hl, if_pos hl]
    · rw [if_neg hl, if_neg hl]
      cases hs : scanSets env txid i t.value t.script_pubkey r sets.enum a u with
      | none => rfl
      | some p =>
        obtain ⟨a', u', m⟩ := p
        exact ih (i + 1) a' u' (m || f)

theorem depositLoop_flag_true (env : Env) (sets : List SignatorySetSnapshot)
    (txid : Nat) (rec : List (List Nat)) :
    ∀ (outs : List TxOut) (i : Nat) (a : List (Address × Account))
      (u : List Utxo),
      (depositLoop env sets txid rec outs i a u true).2.2.1 = true := by
  intro outs
  induction outs with
  | nil =>
    intro i a u
    rfl
  | cons t ts ih =>
    intro i a u
    simp only [depositLoop]
    cases hr : rec.head? with
    | none => rfl
    | some r =>
      dsimp only
      by_cases hl : r.length ≠ 33
      · rw [if_pos hl]
      · rw [if_neg hl]
        cases hs : scanSets env txid i t.value t.script_pubkey r sets.enum a u with
        | none => rfl
        | some p =>
          obtain ⟨a', u', m⟩ := p
          simp only [Bool.or_true]
          exact ih (i + 1) a' u'

theorem depositLoop_no_err (env : Env) (sets : List SignatorySetSnapshot)
    (txid : Nat) (rec : List (List Nat)) (r : List Nat)
    (hr : rec.head? = some r) (hl : ¬ r.length ≠ 33) :
    ∀ (outs : List TxOut) (i : Nat) (a : List (Address × Account))
      (u : List Utxo) (f : Bool) (m : String),
      (depositLoop env sets txid rec outs i a u f).2.2.2 ≠ Res.err m := by
  intro outs
  induction outs with
  | nil =>
    intro i a u f m
    simp [depositLoop]
  | cons t ts ih =>
    intro i a u f m
    simp only [depositLoop, hr]
    rw [if_neg hl]
    cases hs : scanSets env txid i t.value t.script_pubkey r sets.enum a u with
    | none => simp
    | some p =>
      obtain ⟨a', u', m2⟩ := p
      exact ih (i + 1) a' u' (m2 || f) m

theorem depositLoop_err_unchanged (env : Env) (sets : List SignatorySetSnapshot)
    (txid : Nat) (rec : List (List Nat)) :
    ∀ (outs : List TxOut) (i : Nat) (a : List (Address × Account))
      (u : List Utxo) (f : Bool) (a' : List (Address × Account))
      (u' : List Utxo) (f' : Bool) (m : String),
      depositLoop env sets txid rec outs i a u f = (a', u', f', Res.err m) →
      a' = a ∧ u' = u ∧ f' = f := by
  intro outs
  induction outs with
  | nil =>
    intro i a u f a' u' f' m h
    simp [depositLoop, Prod.ext_iff] at h
  | cons t ts ih =>
    intro i a u f a' u' f' m h
    simp only [depositLoop] at h
    cases hr : rec.head? with
    | none =>
      rw [hr] at h
      dsimp only at h
      simp only [Prod.mk.injEq] at h
      exact ⟨h.1.symm, h.2.1.symm, h.2.2.1.symm⟩
    | some r =>
      rw [hr] at h
      dsimp only at h
      by_cases hl : r.length ≠ 33
      · rw [if_pos hl] at h
        simp only [Prod.mk.injEq] at h
        exact ⟨h.1.symm, h.2.1.symm, h.2.2.1.symm⟩
      · rw [if_neg hl] at h
        cases hs : scanSets env txid i t.value t.script_pubkey r sets.enum a u with
        | none =>
          rw [hs] at h
          simp [Prod.ext_iff] at h
        | some p =>
          obtain ⟨a2, u2, m2⟩ := p
          rw [hs] at h
          dsimp only at h
          exfalso
          exact depositLoop_no_err env sets txid rec r hr hl ts (i + 1) a2 u2
            (m2 || f) m (by rw [h])

theorem depositLoop_no_crash (env : Env) (sets : List SignatorySetSnapshot)
    (txid : Nat) (rec : List (List Nat)) :
    ∀ (outs : List TxOut) (i : Nat) (a : List (Address × Account))
      (u : List Utxo) (f : Bool),
      (depositLoop env sets txid rec outs i a u f).2.2.2 ≠ Res.crash := by
  intro outs
  induction outs with
  | nil =>
    intro i a u f
    simp [depositLoop]
  | cons t ts ih =>
    intro i a u f
    simp only [depositLoop]
    cases hr : rec.head? with
    | none => simp
    | some r =>
      dsimp only
      by_cases hl : r.length ≠ 33
      · rw [if_pos hl]
        simp
      · rw [if_neg hl]
        cases hs : scanSets env txid i t.value t.script_pubkey r sets.enum a u with
        | none =>
          exact absurd hs (scanSets_ne_none env txid i t.value t.script_pubkey r
            (by omega) sets.enum a u)
        | some p =>
          obtain ⟨a', u', m2⟩ := p
          exact ih (i + 1) a' u' (m2 || f)

theorem depositLoop_ok_false (env : Env) (sets : List SignatorySetSnapshot)
    (txid : Nat) (rec : List (List Nat)) :
    ∀ (outs : List TxOut) (i : Nat) (a : List (Address × Account))
      (u : List Utxo) (a' : List (Address × Account)) (u' : List Utxo),
      depositLoop env sets txid rec outs i a u false = (a', u', false, Res.ok) →
      a' = a ∧ u' = u := by
  intro outs
  induction outs with
  | nil =>
    intro i a u a' u' h
    simp only [depositLoop, Prod.mk.injEq] at h
    exact ⟨h.1.symm, h.2.1.symm⟩
  | cons t ts ih =>
    intro i a u a' u' h
    simp only [depositLoop] at h
    cases hr : rec.head? with
    | none =>
      rw [hr] at h
      simp [Prod.ext_iff] at h
    | some r =>
      rw [hr] at h
      dsimp only at h
      by_cases hl : r.length ≠ 33
      · rw [if_pos hl] at h
        simp [Prod.ext_iff] at h
      · rw [if_neg hl] at h
        cases hs : scanSets env txid i t.value t.script_pubkey r sets.enum a u with
        | none =>
          rw [hs] at h
          simp [Prod.ext_iff] at h
        | some p =>
          obtain ⟨a2, u2, m2⟩ := p
          rw [hs] at h
          dsimp only at h
          cases m2 with
          | true =>
            exfalso
            have hflag := depositLoop_flag_true env sets txid rec ts (i + 1) a2 u2
            rw [show (true || false) = true from rfl] at h
            rw [h] at hflag
            simp at hflag
          | false =>
            rw [show (false || false) = false from rfl] at h
            obtain ⟨ha2, hu2⟩ :=
              scanSets_unmatched env txid i t.value t.script_pubkey r sets.enum
                a u a2 u2 hs
            obtain ⟨ha', hu'⟩ := ih (i + 1) a2 u2 a' u' h
            exact ⟨ha'.trans ha2, hu'.trans hu2⟩

theorem depositLoop_consumed_iff (env : Env) (sets : List SignatorySetSnapshot)
    (txid : Nat) (rec : List (List Nat)) (outs : List TxOut) (i : Nat)
    (a : List (Address × Account)) (u : List Utxo) (f : Bool) :
    (depositLoop env sets txid rec outs i a u f).2.2.2
        = Res.err "Consumed all recipients" ↔ rec = [] ∧ outs ≠ [] := by
  cases outs with
  | nil => simp [depositLoop]
  | cons t ts =>
    cases hrec : rec with
    | nil => simp [depositLoop, List.head?]
    | cons r rs =>
      simp only [depositLoop, List.head?]
      constructor
      · intro h
        exfalso
        by_cases hl : r.length ≠ 33
        · rw [if_pos hl] at h
          simp at h
        · rw [if_neg hl] at h
          cases hs : scanSets env txid i t.value t.script_pubkey r sets.enum a u with
          | none =>
            rw [hs] at h
            simp at h
          | some p =>
            obtain ⟨a2, u2, m2⟩ := p
            rw [hs] at h
            dsimp only at h
            exact depositLoop_no_err env sets txid (r :: rs) r rfl hl ts (i + 1)
              a2 u2 (m2 || f) "Consumed all recipients" h
      · rintro ⟨h1, _⟩
        cases h1

/-! Per-handler structural lemmas. -/

theorem handle_transfer_ok_or_unchanged (st : ChainState)
    (tx : TransferTransaction) :
    (handle_transfer_tx st tx).2 = Res.ok ∨ (handle_transfer_tx st tx).1 = st := by
  unfold handle_transfer_tx
  repeat' split
  all_goals first | exact Or.inl rfl | exact Or.inr rfl

theorem handle_transfer_fields (st : ChainState) (tx : TransferTransaction) :
    (handle_transfer_tx st tx).1.signatory_sets = st.signatory_sets ∧
    (handle_transfer_tx st tx).1.redeemed_work_hashes = st.redeemed_work_hashes ∧
    (handle_transfer_tx st tx).1.processed_deposit_txids = st.processed_deposit_txids ∧
    (handle_transfer_tx st tx).1.headers = st.headers ∧
    (handle_transfer_tx st tx).1.pending_withdrawals = st.pending_withdrawals ∧
    (handle_transfer_tx st tx).1.utxos = st.utxos := by
  unfold handle_transfer_tx
  repeat' split
  all_goals simp

theorem handle_transfer_no_crash (st : ChainState) (tx : TransferTransaction) :
    (handle_transfer_tx st tx).2 ≠ Res.crash := by
  unfold handle_transfer_tx
  repeat' split
  all_goals simp_all [slice_to_address]

theorem handle_withdrawal_ok_or_unchanged (st : ChainState)
    (tx : WithdrawalTransaction) :
    (handle_withdrawal_tx st tx).2 = Res.ok ∨
      (handle_withdrawal_tx st tx).1 = st := by
  unfold handle_withdrawal_tx
  repeat' split
  all_goals first | exact Or.inl rfl | exact Or.inr rfl

theorem handle_withdrawal_fields (st : ChainState) (tx : WithdrawalTransaction) :
    (handle_withdrawal_tx st tx).1.signatory_sets = st.signatory_sets ∧
    (handle_withdrawal_tx st tx).1.redeemed_work_hashes = st.redeemed_work_hashes ∧
    (handle_withdrawal_tx st tx).1.processed_deposit_txids = st.processed_deposit_txids ∧
    (handle_withdrawal_tx st tx).1.headers = st.headers ∧
    (handle_withdrawal_tx st tx).1.utxos = st.utxos := by
  unfold handle_withdrawal_tx
  repeat' split
  all_goals simp

theorem handle_withdrawal_no_crash (st : ChainState) (tx : WithdrawalTransaction) :
    (handle_withdrawal_tx st tx).2 ≠ Res.crash := by
  unfold handle_withdrawal_tx
  repeat' split
  all_goals simp_all [slice_to_address]

theorem handle_deposit_master (env : Env) (st : ChainState)
    (dtx : DepositTransaction) :
    ((handle_deposit_tx env st dtx).2 = Res.ok ∨
      (handle_deposit_tx env st dtx).1 = st) ∧
    (handle_deposit_tx env st dtx).1.signatory_sets = st.signatory_sets ∧
    (handle_deposit_tx env st dtx).1.redeemed_work_hashes = st.redeemed_work_hashes ∧
    (handle_deposit_tx env st dtx).1.headers = st.headers ∧
    (handle_deposit_tx env st dtx).1.pending_withdrawals = st.pending_withdrawals ∧
    (handle_deposit_tx env st dtx).2 ≠ Res.crash ∧
    ((handle_deposit_tx env st dtx).2 = Res.ok →
      (handle_deposit_tx env st dtx).1.processed_deposit_txids
        = sinsert st.processed_deposit_txids dtx.tx.txid ∧
      st.processed_deposit_txids.contains dtx.tx.txid = false) ∧
    ((handle_deposit_tx env st dtx).2 ≠ Res.ok →
      (handle_deposit_tx env st dtx).1.processed_deposit_txids
        = st.processed_deposit_txids) := by
  by_cases h1 : dtx.tx.txid ∈ st.processed_deposit_txids
  · simp [handle_deposit_tx, h1]
  · cases h2 : get_header_for_height st.headers dtx.height with
    | none => simp [handle_deposit_tx, h1, h2]
    | some hdr =>
      cases h3 : extract_matches dtx.proof with
      | error m => simp [handle_deposit_tx, h1, h2, h3]
      | ok root =>
        by_cases h4 : root ≠ hdr.header.merkle_root
        · simp [handle_deposit_tx, h1, h2, h3, h4]
        · rcases hL : depositLoop env st.signatory_sets dtx.tx.txid
            dtx.recipients dtx.tx.output 0 st.accounts st.utxos false
            with ⟨a', u', flag, r0⟩
          have hred : handle_deposit_tx env st dtx
              = depositCommit st dtx.tx.txid (a', u', flag, r0) := by
            simp [handle_deposit_tx, h1, h2, h3, h4, hL]
          rw [hred]
          cases r0 with
          | ok =>
            cases flag with
            | true => simp [depositCommit, h1]
            | false =>
              obtain ⟨ha, hu⟩ := depositLoop_ok_false env st.signatory_sets
                dtx.tx.txid dtx.recipients dtx.tx.output 0 st.accounts st.utxos
                a' u' hL
              subst ha
              subst hu
              simp [depositCommit]
          | err m =>
            obtain ⟨ha, hu, _⟩ := depositLoop_err_unchanged env st.signatory_sets
              dtx.tx.txid dtx.recipients dtx.tx.output 0 st.accounts st.utxos
              false a' u' flag m hL
            subst ha
            subst hu
            simp [depositCommit]
          | crash =>
            exfalso
            exact depositLoop_no_crash env st.signatory_sets dtx.tx.txid
              dtx.recipients dtx.tx.output 0 st.accounts st.utxos false
              (by rw [hL])

theorem handle_begin_block_ok_or_unchanged (env : Env) (st : ChainState)
    (v : Validators) (t : Nat) :
    (handle_begin_block env st v t).2 = Res.ok ∨
      (handle_begin_block env st v t).1 = st := by
  simp only [handle_begin_block]
  repeat' split
  all_goals first | exact Or.inl rfl | exact Or.inr rfl

theorem handle_begin_block_fields (env : Env) (st : ChainState)
    (v : Validators) (t : Nat) :
    (handle_begin_block env st v t).1.accounts = st.accounts ∧
    (handle_begin_block env st v t).1.redeemed_work_hashes = st.redeemed_work_hashes ∧
    (handle_begin_block env st v t).1.processed_deposit_txids = st.processed_deposit_txids ∧
    (handle_begin_block env st v t).1.pending_withdrawals = st.pending_withdrawals ∧
    (handle_begin_block env st v t).1.utxos = st.utxos ∧
    (handle_begin_block env st v t).1.headers = st.headers := by
  simp only [handle_begin_block]
  repeat' split
  all_goals simp

theorem handle_begin_block_sets (env : Env) (st : ChainState)
    (v : Validators) (t : Nat) :
    (handle_begin_block env st v t).1.signatory_sets = st.signatory_sets ∨
    ∃ s, (handle_begin_block env st v t).1.signatory_sets
      = st.signatory_sets ++ [s] := by
  simp only [handle_begin_block]
  repeat' split
  all_goals first | exact Or.inl rfl | (right; exact ⟨_, rfl⟩)

theorem handle_work_proof_ok_or_unchanged (env : Env) (st : ChainState)
    (v : Validators) (tx : WorkProofTransaction) :
    (handle_work_proof_tx env st v tx).2.2 = Res.ok ∨
      ((handle_work_proof_tx env st v tx).1 = st ∧
       (handle_work_proof_tx env st v tx).2.1 = v) := by
  simp only [handle_work_proof_tx]
  repeat' split
  all_goals first | exact Or.inl rfl | exact Or.inr ⟨rfl, rfl⟩

theorem handle_work_proof_fields (env : Env) (st : ChainState)
    (v : Validators) (tx : WorkProofTransaction) :
    (handle_work_proof_tx env st v tx).1.accounts = st.accounts ∧
    (handle_work_proof_tx env st v tx).1.signatory_sets = st.signatory_sets ∧
    (handle_work_proof_tx env st v tx).1.processed_deposit_txids = st.processed_deposit_txids ∧
    (handle_work_proof_tx env st v tx).1.pending_withdrawals = st.pending_withdrawals ∧
    (handle_work_proof_tx env st v tx).1.utxos = st.utxos ∧
    (handle_work_proof_tx env st v tx).1.headers = st.headers ∧
    (handle_work_proof_tx env st v tx).2.2 ≠ Res.crash := by
  simp only [handle_work_proof_tx]
  repeat' split
  all_goals simp

theorem handle_work_proof_redeemed (env : Env) (st : ChainState)
    (v : Validators) (tx : WorkProofTransaction) (h : Nat)
    (hc : (handle_work_proof_tx env st v tx).1.redeemed_work_hashes.contains h
      = true) :
    st.redeemed_work_hashes.contains h = true ∨ MIN_WORK ≤ work h := by
  simp only [handle_work_proof_tx] at hc
  by_cases hw : work (env.hashFn tx.public_key tx.nonce) < MIN_WORK
  · rw [if_pos hw] at hc
    exact Or.inl hc
  · rw [if_neg hw] at hc
    by_cases hr2 : st.redeemed_work_hashes.contains
        (env.hashFn tx.public_key tx.nonce) = true
    · rw [if_pos hr2] at hc
      exact Or.inl hc
    · rw [if_neg hr2] at hc
      rcases contains_of_contains_sinsert st.redeemed_work_hashes
        (env.hashFn tx.public_key tx.nonce) h hc with h1 | h2
      · exact Or.inl h1
      · subst h2
        right
        omega

theorem run_sets_non_begin (env : Env) (st : ChainState) (a : Action)
    (v : Validators) (hna : ∀ t, a ≠ Action.BeginBlock t) :
    (run env st a v).1.signatory_sets = st.signatory_sets := by
  cases a with
  | BeginBlock t => exact absurd rfl (hna t)
  | Transaction tx =>
    cases tx with
    | WorkProof t => exact (handle_work_proof_fields env st v t).2.1
    | Header t => rfl
    | Deposit t => exact (handle_deposit_master env st t).2.1
    | Transfer t => exact (handle_transfer_fields st t).1
    | Withdrawal t => exact (handle_withdrawal_fields st t).1
    | Signature t => rfl

theorem run_redeemed_step (env : Env) (st : ChainState) (a : Action)
    (v : Validators) (st' : ChainState) (v' : Validators) (r : Res)
    (hrun : run env st a v = (st', v', r)) (h : Nat)
    (hc : st'.redeemed_work_hashes.contains h = true) :
    st.redeemed_work_hashes.contains h = true ∨ MIN_WORK ≤ work h := by
  cases a with
  | BeginBlock t =>
    have h1 : (handle_begin_block env st v t).1 = st' := congrArg Prod.fst hrun
    rw [← h1, (handle_begin_block_fields env st v t).2.1] at hc
    exact Or.inl hc
  | Transaction tx =>
    cases tx with
    | WorkProof t =>
      have h1 : (handle_work_proof_tx env st v t).1 = st' := congrArg Prod.fst hrun
      exact handle_work_proof_redeemed env st v t h (by rw [h1]; exact hc)
    | Header t =>
      have h1 : ({ st with headers := (addHeaders st.headers t.block_headers).1 }
          : ChainState) = st' := congrArg Prod.fst hrun
      rw [← h1] at hc
      exact Or.inl hc
    | Deposit t =>
      have h1 : (handle_deposit_tx env st t).1 = st' := congrArg Prod.fst hrun
      rw [← h1, (handle_deposit_master env st t).2.2.1] at hc
      exact Or.inl hc
    | Transfer t =>
      have h1 : (handle_transfer_tx st t).1 = st' := congrArg Prod.fst hrun
      rw [← h1, (handle_transfer_fields st t).2.1] at hc
      exact Or.inl hc
    | Withdrawal t =>
      have h1 : (handle_withdrawal_tx st t).1 = st' := congrArg Prod.fst hrun
      rw [← h1, (handle_withdrawal_fields st t).2.1] at hc
      exact Or.inl hc
    | Signature t =>
      have h1 : st = st' := congrArg Prod.fst hrun
      rw [← h1] at hc
      exact Or.inl hc

theorem reachable_redeemed_min_work (env : Env) (st : ChainState)
    (v : Validators) (hr : Reachable env st v) :
    ∀ h, st.redeemed_work_hashes.contains h = true → MIN_WORK ≤ work h := by
  induction hr with
  | genesis anchor v0 =>
    intro h hc
    simp [genesisState] at hc
  | step st0 v0 a st1 v1 hprev hrun ih =>
    intro h hc
    rcases run_redeemed_step env st0 a v0 st1 v1 Res.ok hrun h hc with h1 | h2
    · exact ih h h1
    · exact h2

theorem lastSnapTime_eq (st : ChainState) (last : SignatorySetSnapshot)
    (h : st.signatory_sets.getLast? = some last) : lastSnapTime st = last.time := by
  simp [lastSnapTime, h]

theorem reachable_mono_sig_inv (env : Env) (st : ChainState) (v : Validators)
    (hr : ReachableMono env st v) :
    (∀ s ∈ st.signatory_sets, s.time < U64MOD) ∧
    List.Chain' (fun a b => a.time + SIGNATORY_CHANGE_INTERVAL ≤ b.time)
      st.signatory_sets := by
  induction hr with
  | genesis anchor v0 =>
    constructor
    · intro s hs
      simp [genesisState] at hs
    · simp [genesisState]
  | step st0 v0 a st1 v1 hprev hmono hrun ih =>
    obtain ⟨ihb, ihc⟩ := ih
    cases a with
    | Transaction tx =>
      have hs : st1.signatory_sets = st0.signatory_sets := by
        have h2 := run_sets_non_begin env st0 (Action.Transaction tx) v0
          (by intro t hh; cases hh)
        rw [hrun] at h2
        exact h2
      rw [hs]
      exact ⟨ihb, ihc⟩
    | BeginBlock t =>
      have h1 : (handle_begin_block env st0 v0 t).1 = st1 := congrArg Prod.fst hrun
      have h3 : (handle_begin_block env st0 v0 t).2 = Res.ok :=
        congrArg (fun p => p.2.2) hrun
      cases hlast : st0.signatory_sets.getLast? with
      | none =>
        have hemp : st0.signatory_sets = [] := by simpa using hlast
        cases hsv : signatories_from_validators env v0 with
        | error e =>
          exfalso
          simp only [handle_begin_block, hlast, hsv] at h3
          exact Res.noConfusion h3
        | ok sigs =>
          simp only [handle_begin_block, hlast, hsv] at h1
          rw [← h1]
          constructor
          · intro s hs
            simp only [hemp, List.nil_append, List.mem_singleton] at hs
            rw [hs]
            exact wrap_lt t
          · simp [hemp]
      | some last =>
        have hne : st0.signatory_sets ≠ [] := by
          intro hh
          rw [hh] at hlast
          cases hlast
        have hmono2 : last.time ≤ wrap t := by
          simp only [monoOk] at hmono
          rcases hmono with hc1 | hc2
          · exact absurd hc1 hne
          · rw [lastSnapTime_eq st0 last hlast] at hc2
            exact hc2
        have hbound : last.time < U64MOD := ihb last (mem_of_getLast?_eq hlast)
        have hws : wsub (wrap t) last.time = wrap t - last.time :=
          wsub_eq_sub (wrap_lt t) hbound hmono2
        by_cases hgap : SIGNATORY_CHANGE_INTERVAL ≤ wsub (wrap t) last.time
        · cases hsv : signatories_from_validators env v0 with
          | error e =>
            exfalso
            simp only [handle_begin_block, hlast] at h3
            rw [if_pos hgap, hsv] at h3
            exact Res.noConfusion h3
          | ok sigs =>
            simp only [handle_begin_block, hlast] at h1
            rw [if_pos hgap, hsv] at h1
            rw [← h1]
            constructor
            · intro s hs
              rcases List.mem_append.mp hs with h5 | h6
              · exact ihb s h5
              · rw [List.mem_singleton.mp h6]
                exact wrap_lt t
            · rw [List.chain'_append]
              refine ⟨ihc, List.chain'_singleton _, ?_⟩
              intro x hx y hy
              rw [hlast] at hx
              have hxl : last = x := by simpa using hx
              have hyl : y.time = wrap t := by
                have h7 : (⟨wrap t, sigs⟩ : SignatorySetSnapshot) = y := by
                  simpa using hy
                rw [← h7]
              rw [← hxl, hyl]
              rw [hws] at hgap
              omega
        · simp only [handle_begin_block, hlast] at h1
          rw [if_neg hgap] at h1
          rw [← h1]
          exact ⟨ihb, ihc⟩

theorem handle_deposit_checks_pass (env : Env) (st : ChainState)
    (dtx : DepositTransaction) (hdr : EnrichedHeader) (root : Nat)
    (hrep : st.processed_deposit_txids.contains dtx.tx.txid = false)
    (hh : get_header_for_height st.headers dtx.height = some hdr)
    (hm : extract_matches dtx.proof = Except.ok root)
    (hroot : root = hdr.header.merkle_root) :
    handle_deposit_tx env st dtx = depositCommit st dtx.tx.txid
      (depositLoop env st.signatory_sets dtx.tx.txid dtx.recipients
        dtx.tx.output 0 st.accounts st.utxos false) := by
  subst hroot
  have hrep2 : dtx.tx.txid ∉ st.processed_deposit_txids := by simpa using hrep
  simp [handle_deposit_tx, hrep2, hh, hm]

/-! Claim theorems. -/

/-- C1 counterexample: as stated the claim fails for Header transactions: a
Header action whose second header fails validation keeps the first header it
already added, so run errs but the post-store differs from the pre-store. -/
theorem C1_counterexample_header_partial_write :
    (run envCE (genesisState anchorCE)
      (Action.Transaction (Transaction.Header headerTxCE)) []).2.2
        = Res.err "header does not connect" ∧
    (run envCE (genesisState anchorCE)
      (Action.Transaction (Transaction.Header headerTxCE)) []).1
        ≠ genesisState anchorCE := by
  decide

/-- C1 (amended): for every action other than a Header transaction whose
handler returns an error, the post-state of the store equals the pre-state
and the validator map passed to run is unchanged; in particular a failing
WorkProof action leaves validators untouched. -/
theorem C1_atomicity_non_header (env : Env) (st : ChainState) (a : Action)
    (v : Validators) (st' : ChainState) (v' : Validators) (msg : String)
    (hrun : run env st a v = (st', v', Res.err msg))
    (hnh : isHeaderTx a = false) :
    st' = st ∧ v' = v := by
  cases a with
  | BeginBlock t =>
    have h1 : (handle_begin_block env st v t).1 = st' := congrArg Prod.fst hrun
    have h2 : v = v' := congrArg (fun p => p.2.1) hrun
    have h3 : (handle_begin_block env st v t).2 = Res.err msg :=
      congrArg (fun p => p.2.2) hrun
    rcases handle_begin_block_ok_or_unchanged env st v t with h4 | h4
    · rw [h3] at h4
      exact Res.noConfusion h4
    · rw [h4] at h1
      exact ⟨h1.symm, h2.symm⟩
  | Transaction tx =>
    cases tx with
    | WorkProof t =>
      have h1 : (handle_work_proof_tx env st v t).1 = st' := congrArg Prod.fst hrun
      have h2 : (handle_work_proof_tx env st v t).2.1 = v' :=
        congrArg (fun p => p.2.1) hrun
      have h3 : (handle_work_proof_tx env st v t).2.2 = Res.err msg :=
        congrArg (fun p => p.2.2) hrun
      rcases handle_work_proof_ok_or_unchanged env st v t with h4 | ⟨h4, h5⟩
      · rw [h3] at h4
        exact Res.noConfusion h4
      · rw [h4] at h1
        rw [h5] at h2
        exact ⟨h1.symm, h2.symm⟩
    | Header t => exact Bool.noConfusion hnh
    | Deposit t =>
      have h1 : (handle_deposit_tx env st t).1 = st' := congrArg Prod.fst hrun
      have h2 : v = v' := congrArg (fun p => p.2.1) hrun
      have h3 : (handle_deposit_tx env st t).2 = Res.err msg :=
        congrArg (fun p => p.2.2) hrun
      rcases (handle_deposit_master env st t).1 with h4 | h4
      · rw [h3] at h4
        exact Res.noConfusion h4
      · rw [h4] at h1
        exact ⟨h1.symm, h2.symm⟩
    | Transfer t =>
      have h1 : (handle_transfer_tx st t).1 = st' := congrArg Prod.fst hrun
      have h2 : v = v' := congrArg (fun p => p.2.1) hrun
      have h3 : (handle_transfer_tx st t).2 = Res.err msg :=
        congrArg (fun p => p.2.2) hrun
      rcases handle_transfer_ok_or_unchanged st t with h4 | h4
      · rw [h3] at h4
        exact Res.noConfusion h4
      · rw [h4] at h1
        exact ⟨h1.symm, h2.symm⟩
    | Withdrawal t =>
      have h1 : (handle_withdrawal_tx st t).1 = st' := congrArg Prod.fst hrun
      have h2 : v = v' := congrArg (fun p => p.2.1) hrun
      have h3 : (handle_withdrawal_tx st t).2 = Res.err msg :=
        congrArg (fun p => p.2.2) hrun
      rcases handle_withdrawal_ok_or_unchanged st t with h4 | h4
      · rw [h3] at h4
        exact Res.noConfusion h4
      · rw [h4] at h1
        exact ⟨h1.symm, h2.symm⟩
    | Signature t =>
      have h1 : st = st' := congrArg Prod.fst hrun
      have h2 : v = v' := congrArg (fun p => p.2.1) hrun
      exact ⟨h1.symm, h2.symm⟩

/-- C1 witness: the amended atomicity theorem applied to a concrete failing
transfer (fee too small) from the genesis store. -/
theorem C1_atomicity_non_header_witness :
    genesisState [] = genesisState [] ∧ ([] : Validators) = [] :=
  C1_atomicity_non_header envCE (genesisState [])
    (Action.Transaction (Transaction.Transfer txFeeFail)) [] (genesisState [])
    [] "Transaction fee is too small" (by decide) (by decide)

/-- C2: the deposit recipients iterator is only peeked, never advanced: the
handler result depends only on the first recipient (a deposit with recipients
r :: rest behaves exactly as one with recipients [r]), and once the replay,
header and merkle checks pass, the error Consumed all recipients is raised
iff the recipients list is empty while the transaction has at least one
output. -/
theorem C2_recipients_peek_only (env : Env) (st : ChainState)
    (dtx : DepositTransaction) (hdr : EnrichedHeader) (root : Nat)
    (hrep : st.processed_deposit_txids.contains dtx.tx.txid = false)
    (hh : get_header_for_height st.headers dtx.height = some hdr)
    (hm : extract_matches dtx.proof = Except.ok root)
    (hroot : root = hdr.header.merkle_root) :
    (∀ r rest, handle_deposit_tx env st { dtx with recipients := r :: rest }
      = handle_deposit_tx env st { dtx with recipients := [r] }) ∧
    ((handle_deposit_tx env st dtx).2 = Res.err "Consumed all recipients" ↔
      dtx.recipients = [] ∧ dtx.tx.output ≠ []) := by
  constructor
  · intro r rest
    have e1 := handle_deposit_checks_pass env st
      { dtx with recipients := r :: rest } hdr root hrep hh hm hroot
    have e2 := handle_deposit_checks_pass env st
      { dtx with recipients := [r] } hdr root hrep hh hm hroot
    rw [e1, e2]
    dsimp only
    rw [depositLoop_head env st.signatory_sets dtx.tx.txid r rest dtx.tx.output
      0 st.accounts st.utxos false]
  · rw [handle_deposit_checks_pass env st dtx hdr root hrep hh hm hroot]
    have hiff := depositLoop_consumed_iff env st.signatory_sets dtx.tx.txid
      dtx.recipients dtx.tx.output 0 st.accounts st.utxos false
    rcases hL : depositLoop env st.signatory_sets dtx.tx.txid dtx.recipients
      dtx.tx.output 0 st.accounts st.utxos false with ⟨a', u', flag, r0⟩
    rw [hL] at hiff
    dsimp only at hiff
    cases r0 with
    | ok =>
      simp only [depositCommit]
      cases flag with
      | true =>
        by_cases hf : (true : Bool) = true
        · rw [if_pos hf]
          exact hiff
        · exact absurd rfl hf
      | false =>
        rw [if_neg (by simp)]
        constructor
        · intro hcon
          exact absurd (Res.err.inj hcon) (by decide)
        · intro hR
          exact Res.noConfusion (hiff.mpr hR)
    | err m =>
      simp only [depositCommit]
      exact hiff
    | crash =>
      exfalso
      exact depositLoop_no_crash env st.signatory_sets dtx.tx.txid
        dtx.recipients dtx.tx.output 0 st.accounts st.utxos false (by rw [hL])

/-- C2 witness: the theorem applied to a concrete deposit with an empty
recipients list that passes the replay, header and merkle checks. -/
theorem C2_recipients_peek_only_witness :
    (∀ r rest, handle_deposit_tx envCE stDepCE
        { dtxConsumedCE with recipients := r :: rest }
      = handle_deposit_tx envCE stDepCE
        { dtxConsumedCE with recipients := [r] }) ∧
    ((handle_deposit_tx envCE stDepCE dtxConsumedCE).2
        = Res.err "Consumed all recipients" ↔
      dtxConsumedCE.recipients = [] ∧ dtxConsumedCE.tx.output ≠ []) :=
  C2_recipients_peek_only envCE stDepCE dtxConsumedCE ⟨⟨0, 7, 5⟩, 0⟩ 7
    (by decide) (by decide) rfl rfl

theorem handle_work_proof_ok (env : Env) (st : ChainState) (v : Validators)
    (tx : WorkProofTransaction)
    (hok : (handle_work_proof_tx env st v tx).2.2 = Res.ok) :
    (handle_work_proof_tx env st v tx).1.redeemed_work_hashes
        = sinsert st.redeemed_work_hashes (env.hashFn tx.public_key tx.nonce) ∧
    st.redeemed_work_hashes.contains (env.hashFn tx.public_key tx.nonce)
        = false ∧
    ¬ work (env.hashFn tx.public_key tx.nonce) < MIN_WORK ∧
    (handle_work_proof_tx env st v tx).2.1 = ainsert v tx.public_key
      (wrap ((alookup v tx.public_key).getD 0
        + work (env.hashFn tx.public_key tx.nonce))) ∧
    (handle_work_proof_tx env st v tx).1 = { st with
      redeemed_work_hashes :=
        sinsert st.redeemed_work_hashes (env.hashFn tx.public_key tx.nonce) } := by
  simp only [handle_work_proof_tx] at hok ⊢
  by_cases hw : work (env.hashFn tx.public_key tx.nonce) < MIN_WORK
  · rw [if_pos hw] at hok
    exact absurd hok (by simp)
  · rw [if_neg hw] at hok ⊢
    by_cases hr : st.redeemed_work_hashes.contains
        (env.hashFn tx.public_key tx.nonce) = true
    · rw [if_pos hr] at hok
      exact absurd hok (by simp)
    · rw [if_neg hr]
      have hr2 : st.redeemed_work_hashes.contains
          (env.hashFn tx.public_key tx.nonce) = false := by
        simpa using hr
      exact ⟨rfl, hr2, hw, rfl, rfl⟩

/-- C3: a deposit whose txid is already processed fails with Transaction was
already processed before any other check; in any reachable state a work proof
whose hash is already redeemed fails with Work proof has already been
redeemed; and the txid (resp. hash) is newly inserted into its replay set
exactly when the deposit (resp. work proof) succeeds. -/
theorem C3_replay_protection (env : Env) (st : ChainState) (v : Validators)
    (dtx : DepositTransaction) (wtx : WorkProofTransaction)
    (hreach : Reachable env st v) :
    (st.processed_deposit_txids.contains dtx.tx.txid = true →
      handle_deposit_tx env st dtx
        = (st, Res.err "Transaction was already processed")) ∧
    (st.redeemed_work_hashes.contains (env.hashFn wtx.public_key wtx.nonce)
        = true →
      (handle_work_proof_tx env st v wtx).2.2
        = Res.err "Work proof has already been redeemed") ∧
    ((handle_deposit_tx env st dtx).2 = Res.ok ↔
      (st.processed_deposit_txids.contains dtx.tx.txid = false ∧
       (handle_deposit_tx env st dtx).1.processed_deposit_txids.contains
         dtx.tx.txid = true)) ∧
    ((handle_work_proof_tx env st v wtx).2.2 = Res.ok ↔
      (st.redeemed_work_hashes.contains (env.hashFn wtx.public_key wtx.nonce)
          = false ∧
       (handle_work_proof_tx env st v wtx).1.redeemed_work_hashes.contains
         (env.hashFn wtx.public_key wtx.nonce) = true)) := by
  refine ⟨?_, ?_, ?_, ?_⟩
  · intro hc
    have hc2 : dtx.tx.txid ∈ st.processed_deposit_txids := by simpa using hc
    simp [handle_deposit_tx, hc2]
  · intro hc
    have hw := reachable_redeemed_min_work env st v hreach _ hc
    simp only [handle_work_proof_tx]
    rw [if_neg (by omega), if_pos hc]
  · constructor
    · intro hok
      obtain ⟨hins, hncon⟩ := (handle_deposit_master env st dtx).2.2.2.2.2.2.1 hok
      refine ⟨hncon, ?_⟩
      rw [hins]
      exact contains_sinsert_self st.processed_deposit_txids dtx.tx.txid
    · rintro ⟨hpre, hpost⟩
      by_contra hnok
      have hsame := (handle_deposit_master env st dtx).2.2.2.2.2.2.2 hnok
      rw [hsame, hpre] at hpost
      exact Bool.noConfusion hpost
  · constructor
    · intro hok
      obtain ⟨hins, hncon, _, _, _⟩ := handle_work_proof_ok env st v wtx hok
      refine ⟨hncon, ?_⟩
      rw [hins]
      exact contains_sinsert_self st.redeemed_work_hashes
        (env.hashFn wtx.public_key wtx.nonce)
    · rintro ⟨hpre, hpost⟩
      by_contra hnok
      rcases handle_work_proof_ok_or_unchanged env st v wtx with h4 | ⟨h4, _⟩
      · exact hnok h4
      · rw [h4, hpre] at hpost
        exact Bool.noConfusion hpost

/-- C3 witness: the theorem applied at genesis with a concrete deposit and a
concrete work proof. -/
theorem C3_replay_protection_witness :
    ((genesisState []).processed_deposit_txids.contains dtxHdrFail.tx.txid
        = true →
      handle_deposit_tx envCE (genesisState []) dtxHdrFail
        = (genesisState [], Res.err "Transaction was already processed")) ∧
    ((genesisState []).redeemed_work_hashes.contains
        (envCE.hashFn wptxCE.public_key wptxCE.nonce) = true →
      (handle_work_proof_tx envCE (genesisState []) [] wptxCE).2.2
        = Res.err "Work proof has already been redeemed") ∧
    ((handle_deposit_tx envCE (genesisState []) dtxHdrFail).2 = Res.ok ↔
      ((genesisState []).processed_deposit_txids.contains dtxHdrFail.tx.txid
          = false ∧
       (handle_deposit_tx envCE (genesisState [])
         dtxHdrFail).1.processed_deposit_txids.contains dtxHdrFail.tx.txid
          = true)) ∧
    ((handle_work_proof_tx envCE (genesisState []) [] wptxCE).2.2 = Res.ok ↔
      ((genesisState []).redeemed_work_hashes.contains
          (envCE.hashFn wptxCE.public_key wptxCE.nonce) = false ∧
       (handle_work_proof_tx envCE (genesisState [])
         [] wptxCE).1.redeemed_work_hashes.contains
           (envCE.hashFn wptxCE.public_key wptxCE.nonce) = true)) :=
  C3_replay_protection envCE (genesisState []) [] dtxHdrFail wptxCE
    (Reachable.genesis [] [])

/-- C4: for every transfer passing all checks (with non-overflowing u64
arithmetic), the sender nonce increases by 1, the sender balance decreases by
amount + fee_amount, the recipient balance increases by amount (the recipient
being created with zero balance and zero nonce if absent), no other account
changes, and balance(from) + balance(to) decreases by exactly fee_amount. -/
theorem C4_transfer_effects (st : ChainState) (tx : TransferTransaction)
    (sender : Account)
    (hne : tx.from_ ≠ tx.to_) (hfee : 1000 ≤ tx.fee_amount)
    (hlf : tx.from_.length = 33) (hlt : tx.to_.length = 33)
    (hsender : alookup st.accounts tx.from_ = some sender)
    (hnoov : tx.amount + tx.fee_amount < U64MOD)
    (hbal : tx.amount + tx.fee_amount ≤ sender.balance)
    (hnonce : tx.nonce = sender.nonce) (hsig : tx.sigOk = true)
    (hnov2 : sender.nonce + 1 < U64MOD)
    (hnov3 : ((alookup st.accounts tx.to_).getD {}).balance + tx.amount
      < U64MOD) :
    (handle_transfer_tx st tx).2 = Res.ok ∧
    alookup (handle_transfer_tx st tx).1.accounts tx.from_ =
      some ⟨sender.balance - (tx.amount + tx.fee_amount), sender.nonce + 1⟩ ∧
    alookup (handle_transfer_tx st tx).1.accounts tx.to_ =
      some ⟨((alookup st.accounts tx.to_).getD {}).balance + tx.amount,
        ((alookup st.accounts tx.to_).getD {}).nonce⟩ ∧
    (∀ other, other ≠ tx.from_ → other ≠ tx.to_ →
      alookup (handle_transfer_tx st tx).1.accounts other
        = alookup st.accounts other) ∧
    (sender.balance - (tx.amount + tx.fee_amount))
        + (((alookup st.accounts tx.to_).getD {}).balance + tx.amount)
        + tx.fee_amount
      = sender.balance + ((alookup st.accounts tx.to_).getD {}).balance := by
  have hw : wrap (tx.amount + tx.fee_amount) = tx.amount + tx.fee_amount :=
    wrap_eq_of_lt hnoov
  have hred : handle_transfer_tx st tx = ({ st with
      accounts :=
        ainsert (ainsert st.accounts tx.from_
          ⟨sender.balance - (tx.amount + tx.fee_amount), sender.nonce + 1⟩)
          tx.to_ ⟨((alookup st.accounts tx.to_).getD {}).balance + tx.amount,
            ((alookup st.accounts tx.to_).getD {}).nonce⟩ }, Res.ok) := by
    simp only [handle_transfer_tx]
    rw [if_neg hne]
    rw [if_neg (by omega : ¬ tx.fee_amount < 1000)]
    rw [if_neg (not_not_intro hlf)]
    rw [if_neg (not_not_intro hlt)]
    rw [slice_to_address_len tx.from_ hlf]
    dsimp only
    rw [hsender]
    dsimp only
    rw [hw]
    rw [if_neg (by omega : ¬ sender.balance < tx.amount + tx.fee_amount)]
    rw [if_neg (not_not_intro hnonce)]
    rw [hsig]
    simp only [Bool.not_true, Bool.false_eq_true, if_false]
    rw [slice_to_address_len tx.to_ hlt]
    dsimp only
    rw [wrap_eq_of_lt hnov2, wrap_eq_of_lt hnov3]
  rw [hred]
  dsimp only
  refine ⟨rfl, ?_, ?_, ?_, ?_⟩
  · rw [alookup_ainsert_ne _ tx.to_ tx.from_ _ hne]
    exact alookup_ainsert_self _ tx.from_ _
  · exact alookup_ainsert_self _ tx.to_ _
  · intro other hof hot
    rw [alookup_ainsert_ne _ tx.to_ other _ hot,
      alookup_ainsert_ne _ tx.from_ other _ hof]
  · omega

/-- C4 witness: the theorem applied to the S4 happy-path transfer (sender
balance 1234, amount 100, fee 1000). -/
theorem C4_transfer_effects_witness :
    (handle_transfer_tx stHappy txHappy).2 = Res.ok ∧
    alookup (handle_transfer_tx stHappy txHappy).1.accounts txHappy.from_ =
      some ⟨(1234 : Nat) - (txHappy.amount + txHappy.fee_amount), 0 + 1⟩ ∧
    alookup (handle_transfer_tx stHappy txHappy).1.accounts txHappy.to_ =
      some ⟨((alookup stHappy.accounts txHappy.to_).getD {}).balance
          + txHappy.amount,
        ((alookup stHappy.accounts txHappy.to_).getD {}).nonce⟩ ∧
    (∀ other, other ≠ txHappy.from_ → other ≠ txHappy.to_ →
      alookup (handle_transfer_tx stHappy txHappy).1.accounts other
        = alookup stHappy.accounts other) ∧
    ((1234 : Nat) - (txHappy.amount + txHappy.fee_amount))
        + (((alookup stHappy.accounts txHappy.to_).getD {}).balance
          + txHappy.amount)
        + txHappy.fee_amount
      = 1234 + ((alookup stHappy.accounts txHappy.to_).getD {}).balance :=
  C4_transfer_effects stHappy txHappy ⟨1234, 0⟩ (by decide) (by decide)
    (by decide) (by decide) (by decide) (by decide) (by decide) (by decide)
    (by decide) (by decide) (by decide)

/-- C5: the claim fails against the code: amount + fee_amount is computed
with plain u64 addition, which wraps under release-profile semantics, so a
transfer whose sum overflows u64 is NOT rejected: with amount = fee_amount
= 2 ^ 63 the sum wraps to 0, the transfer succeeds against a balance of 5,
the sender pays nothing and the recipient is credited 2 ^ 63 (coins are
minted); under debug semantics the addition panics instead.  Either way the
handler does not reject with an error as the claim requires. -/
theorem C5_overflow_transfer_accepted :
    U64MOD ≤ txOverflow.amount + txOverflow.fee_amount ∧
    (handle_transfer_tx stOverflow txOverflow).2 = Res.ok ∧
    alookup (handle_transfer_tx stOverflow txOverflow).1.accounts addrA
      = some ⟨5, 1⟩ ∧
    alookup (handle_transfer_tx stOverflow txOverflow).1.accounts addrB
      = some ⟨2 ^ 63, 0⟩ := by
  decide

/-- C6 counterexample: the voting-power grant is a plain wrapping u64
addition, not a saturating one: with existing power 2 ^ 64 - 1 and work
value 2 ^ 64 - 1 the successful proof sets the power to 2 ^ 64 - 2, not to
the saturating sum min u64max (power + work). -/
theorem C6_counterexample_wrapping_add :
    (handle_work_proof_tx envCE (genesisState []) [([1], U64MOD - 1)]
      wptxCE).2.2 = Res.ok ∧
    alookup (handle_work_proof_tx envCE (genesisState []) [([1], U64MOD - 1)]
      wptxCE).2.1 [1] = some (U64MOD - 2) ∧
    U64MOD - 2
      ≠ min (U64MOD - 1) ((U64MOD - 1) + work (envCE.hashFn [1] 0)) := by
  decide

/-- C6 (amended): for every successful work proof, the voting power of
validators[public_key] becomes the wrapping u64 sum (plain +, mod 2 ^ 64) of
the previous power (0 if the entry was absent, so a new entry starts at the
work value) and the computed work value, and the hash is recorded in
RedeemedWorkHashes. -/
theorem C6_work_proof_effects (env : Env) (st : ChainState) (v : Validators)
    (tx : WorkProofTransaction)
    (hok : (handle_work_proof_tx env st v tx).2.2 = Res.ok) :
    alookup (handle_work_proof_tx env st v tx).2.1 tx.public_key
      = some (wrap ((alookup v tx.public_key).getD 0
          + work (env.hashFn tx.public_key tx.nonce))) ∧
    (handle_work_proof_tx env st v tx).1.redeemed_work_hashes.contains
      (env.hashFn tx.public_key tx.nonce) = true ∧
    (handle_work_proof_tx env st v tx).1 = { st with
      redeemed_work_hashes :=
        sinsert st.redeemed_work_hashes (env.hashFn tx.public_key tx.nonce) } := by
  obtain ⟨hins, hncon, hmin, hval, hst⟩ := handle_work_proof_ok env st v tx hok
  refine ⟨?_, ?_, hst⟩
  · rw [hval]
    exact alookup_ainsert_self _ _ _
  · rw [hins]
    exact contains_sinsert_self _ _

/-- C6 witness: the amended theorem applied to a concrete successful work
proof submitted from genesis with an empty validator map. -/
theorem C6_work_proof_effects_witness :
    alookup (handle_work_proof_tx envCE (genesisState []) [] wptxCE).2.1
        wptxCE.public_key
      = some (wrap ((alookup ([] : Validators) wptxCE.public_key).getD 0
          + work (envCE.hashFn wptxCE.public_key wptxCE.nonce))) ∧
    (handle_work_proof_tx envCE (genesisState [])
      [] wptxCE).1.redeemed_work_hashes.contains
        (envCE.hashFn wptxCE.public_key wptxCE.nonce) = true ∧
    (handle_work_proof_tx envCE (genesisState []) [] wptxCE).1
      = { genesisState [] with
          redeemed_work_hashes :=
            sinsert (genesisState []).redeemed_work_hashes
              (envCE.hashFn wptxCE.public_key wptxCE.nonce) } :=
  C6_work_proof_effects envCE (genesisState []) [] wptxCE (by decide)

/-- C8: for every withdrawal that passes its checks (33-byte sender, account
exists, balance at least amount, nonce matches, signature verifies), the
sender nonce increases by 1, the sender balance decreases by exactly amount
with no fee, and exactly one entry with value amount and script to is
appended to the back of PendingWithdrawals; nothing else changes. -/
theorem C8_withdrawal_effects (st : ChainState) (tx : WithdrawalTransaction)
    (sender : Account)
    (hlf : tx.from_.length = 33)
    (hsender : alookup st.accounts tx.from_ = some sender)
    (hbal : tx.amount ≤ sender.balance)
    (hnonce : tx.nonce = sender.nonce) (hsig : tx.sigOk = true)
    (hnov : sender.nonce + 1 < U64MOD) :
    handle_withdrawal_tx st tx = ({ st with
      accounts := ainsert st.accounts tx.from_
        ⟨sender.balance - tx.amount, sender.nonce + 1⟩,
      pending_withdrawals :=
        st.pending_withdrawals ++ [⟨tx.amount, tx.to_⟩] }, Res.ok) ∧
    alookup (handle_withdrawal_tx st tx).1.accounts tx.from_
      = some ⟨sender.balance - tx.amount, sender.nonce + 1⟩ := by
  have hred : handle_withdrawal_tx st tx = ({ st with
      accounts := ainsert st.accounts tx.from_
        ⟨sender.balance - tx.amount, sender.nonce + 1⟩,
      pending_withdrawals :=
        st.pending_withdrawals ++ [⟨tx.amount, tx.to_⟩] }, Res.ok) := by
    simp only [handle_withdrawal_tx]
    rw [if_neg (not_not_intro hlf)]
    rw [slice_to_address_len tx.from_ hlf]
    dsimp only
    rw [hsender]
    dsimp only
    rw [if_neg (by omega : ¬ sender.balance < tx.amount)]
    rw [if_neg (not_not_intro hnonce)]
    rw [hsig]
    simp only [Bool.not_true, Bool.false_eq_true, if_false]
    rw [wrap_eq_of_lt hnov]
  refine ⟨hred, ?_⟩
  rw [hred]
  dsimp only
  exact alookup_ainsert_self _ _ _

/-- C8 witness: the theorem applied to the S5 happy-path withdrawal (balance
1234, amount 1000). -/
theorem C8_withdrawal_effects_witness :
    handle_withdrawal_tx stHappy wtxHappy = ({ stHappy with
      accounts := ainsert stHappy.accounts wtxHappy.from_
        ⟨(1234 : Nat) - wtxHappy.amount, 0 + 1⟩,
      pending_withdrawals :=
        stHappy.pending_withdrawals ++ [⟨wtxHappy.amount, wtxHappy.to_⟩] },
      Res.ok) ∧
    alookup (handle_withdrawal_tx stHappy wtxHappy).1.accounts wtxHappy.from_
      = some ⟨(1234 : Nat) - wtxHappy.amount, 0 + 1⟩ :=
  C8_withdrawal_effects stHappy wtxHappy ⟨1234, 0⟩ (by decide) (by decide)
    (by decide) (by decide) (by decide) (by decide)

/-- C9: every unsafe_slice_to_address call in the transfer, withdrawal, and
deposit handlers is preceded by a check that the slice is exactly 33 bytes,
so the address conversion never panics on any handler execution path: the
crash outcome is unreachable for the three handlers. -/
theorem C9_no_address_panic (env : Env) (st : ChainState)
    (ttx : TransferTransaction) (wtx : WithdrawalTransaction)
    (dtx : DepositTransaction) :
    (handle_transfer_tx st ttx).2 ≠ Res.crash ∧
    (handle_withdrawal_tx st wtx).2 ≠ Res.crash ∧
    (handle_deposit_tx env st dtx).2 ≠ Res.crash :=
  ⟨handle_transfer_no_crash st ttx, handle_withdrawal_no_crash st wtx,
   (handle_deposit_master env st dtx).2.2.2.2.2.1⟩

/-- C10: a deposit that passes the replay, header and merkle checks but whose
bitcoin transaction has zero outputs fails with Transaction does not contain
any deposit outputs, regardless of the contents of the recipients list. -/
theorem C10_zero_outputs (env : Env) (st : ChainState)
    (dtx : DepositTransaction) (hdr : EnrichedHeader) (root : Nat)
    (hrep : st.processed_deposit_txids.contains dtx.tx.txid = false)
    (hh : get_header_for_height st.headers dtx.height = some hdr)
    (hm : extract_matches dtx.proof = Except.ok root)
    (hroot : root = hdr.header.merkle_root)
    (hout : dtx.tx.output = []) :
    ∀ rec, handle_deposit_tx env st { dtx with recipients := rec }
      = (st, Res.err "Transaction does not contain any deposit outputs") := by
  intro rec
  have e := handle_deposit_checks_pass env st { dtx with recipients := rec }
    hdr root hrep hh hm hroot
  rw [e]
  dsimp only
  rw [hout]
  rfl

/-- C10 witness: the theorem applied to a concrete zero-output deposit that
passes the replay, header and merkle checks. -/
theorem C10_zero_outputs_witness :
    handle_deposit_tx envCE stDepCE { dtxNoOutCE with recipients := [[1, 2]] }
      = (stDepCE, Res.err "Transaction does not contain any deposit outputs") :=
  C10_zero_outputs envCE stDepCE dtxNoOutCE ⟨⟨0, 7, 5⟩, 0⟩ 7 (by decide)
    (by decide) rfl rfl rfl [[1, 2]]

/-- C7 counterexample: a successfully applied BeginBlock whose u64 time is
earlier than the last snapshot wraps the unchecked subtraction, so the
elapsed time appears huge and a new snapshot with an EARLIER time is pushed:
after BeginBlock(1000) then BeginBlock(0), both successful, the history
times are [1000, 0], violating both the non-decreasing-times invariant and
the minimum-gap invariant claimed. -/
theorem C7_counterexample_time_regression :
    (run envCE (genesisState []) (Action.BeginBlock 1000) []).2.2 = Res.ok ∧
    (run envCE (run envCE (genesisState []) (Action.BeginBlock 1000) []).1
      (Action.BeginBlock 0) []).2.2 = Res.ok ∧
    ((run envCE (run envCE (genesisState []) (Action.BeginBlock 1000) []).1
      (Action.BeginBlock 0) []).1.signatory_sets.map
        (fun s => s.time)) = [1000, 0] ∧
    ¬ (1000 + SIGNATORY_CHANGE_INTERVAL ≤ 0) ∧ ¬ ((1000 : Nat) ≤ 0) := by
  decide

/-- C7 (amended): provided every successfully applied BeginBlock carries a
u64 time not earlier than the last snapshot time (no block-time regression),
in every reachable state the snapshot times are non-decreasing and any two
consecutive snapshots differ by at least SIGNATORY_CHANGE_INTERVAL; moreover
a successful BeginBlock always leaves the history non-empty, every
successful action preserves non-emptiness, and a monotone successful
BeginBlock pushes exactly one new snapshot when the history is empty or the
elapsed time reaches the interval, and leaves the state unchanged
otherwise. -/
theorem C7_signatory_invariants (env : Env) (st : ChainState) (v : Validators)
    (hr : ReachableMono env st v) :
    List.Chain' (fun a b => a.time ≤ b.time) st.signatory_sets ∧
    List.Chain' (fun a b => a.time + SIGNATORY_CHANGE_INTERVAL ≤ b.time)
      st.signatory_sets ∧
    (∀ t st' v', run env st (Action.BeginBlock t) v = (st', v', Res.ok) →
      st'.signatory_sets ≠ []) ∧
    (∀ a st' v' r, run env st a v = (st', v', r) →
      st.signatory_sets ≠ [] → st'.signatory_sets ≠ []) ∧
    (∀ t st' v', monoOk st (Action.BeginBlock t) →
      run env st (Action.BeginBlock t) v = (st', v', Res.ok) →
      ((st.signatory_sets = [] ∨
          lastSnapTime st + SIGNATORY_CHANGE_INTERVAL ≤ wrap t) →
        st'.signatory_sets.length = st.signatory_sets.length + 1) ∧
      ((st.signatory_sets ≠ [] ∧
          ¬ lastSnapTime st + SIGNATORY_CHANGE_INTERVAL ≤ wrap t) →
        st' = st)) := by
  obtain ⟨hb, hc⟩ := reachable_mono_sig_inv env st v hr
  refine ⟨?_, hc, ?_, ?_, ?_⟩
  · exact List.Chain'.imp (fun a b h => by omega) hc
  · intro t st' v' hrun
    have h1 : (handle_begin_block env st v t).1 = st' := congrArg Prod.fst hrun
    have h3 : (handle_begin_block env st v t).2 = Res.ok :=
      congrArg (fun p => p.2.2) hrun
    cases hlast : st.signatory_sets.getLast? with
    | none =>
      cases hsv : signatories_from_validators env v with
      | error e =>
        exfalso
        simp only [handle_begin_block, hlast, hsv] at h3
        exact Res.noConfusion h3
      | ok sigs =>
        simp only [handle_begin_block, hlast, hsv] at h1
        rw [← h1]
        simp
    | some last =>
      have hne : st.signatory_sets ≠ [] := by
        intro hh
        rw [hh] at hlast
        cases hlast
      rcases handle_begin_block_sets env st v t with h4 | ⟨s, h4⟩
      · rw [h1] at h4
        rw [h4]
        exact hne
      · rw [h1] at h4
        rw [h4]
        simp
  · intro a st' v' r hrun hpre
    cases a with
    | BeginBlock t =>
      have h1 : (handle_begin_block env st v t).1 = st' := congrArg Prod.fst hrun
      rcases handle_begin_block_sets env st v t with h4 | ⟨s, h4⟩
      · rw [h1] at h4
        rw [h4]
        exact hpre
      · rw [h1] at h4
        rw [h4]
        simp
    | Transaction tx =>
      have h4 := run_sets_non_begin env st (Action.Transaction tx) v
        (by intro t hh; cases hh)
      rw [hrun] at h4
      rw [h4]
      exact hpre
  · intro t st' v' hmono hrun
    have h1 : (handle_begin_block env st v t).1 = st' := congrArg Prod.fst hrun
    have h3 : (handle_begin_block env st v t).2 = Res.ok :=
      congrArg (fun p => p.2.2) hrun
    cases hlast : st.signatory_sets.getLast? with
    | none =>
      have hemp : st.signatory_sets = [] := by simpa using hlast
      cases hsv : signatories_from_validators env v with
      | error e =>
        exfalso
        simp only [handle_begin_block, hlast, hsv] at h3
        exact Res.noConfusion h3
      | ok sigs =>
        simp only [handle_begin_block, hlast, hsv] at h1
        constructor
        · intro _
          rw [← h1]
          simp
        · intro hcon
          exact absurd hemp hcon.1
    | some last =>
      have hne : st.signatory_sets ≠ [] := by
        intro hh
        rw [hh] at hlast
        cases hlast
      have hlt : lastSnapTime st = last.time := lastSnapTime_eq st last hlast
      have hmono2 : last.time ≤ wrap t := by
        simp only [monoOk] at hmono
        rcases hmono with hc1 | hc2
        · exact absurd hc1 hne
        · rw [hlt] at hc2
          exact hc2
      have hbound : last.time < U64MOD := hb last (mem_of_getLast?_eq hlast)
      have hws : wsub (wrap t) last.time = wrap t - last.time :=
        wsub_eq_sub (wrap_lt t) hbound hmono2
      have hcond : (SIGNATORY_CHANGE_INTERVAL ≤ wsub (wrap t) last.time) ↔
          (lastSnapTime st + SIGNATORY_CHANGE_INTERVAL ≤ wrap t) := by
        rw [hws, hlt]
        omega
      by_cases hgap : SIGNATORY_CHANGE_INTERVAL ≤ wsub (wrap t) last.time
      · cases hsv : signatories_from_validators env v with
        | error e =>
          exfalso
          simp only [handle_begin_block, hlast] at h3
          rw [if_pos hgap, hsv] at h3
          exact Res.noConfusion h3
        | ok sigs =>
          simp only [handle_begin_block, hlast] at h1
          rw [if_pos hgap, hsv] at h1
          constructor
          · intro _
            rw [← h1]
            simp
          · intro hcon
            exact absurd (hcond.mp hgap) hcon.2
      · simp only [handle_begin_block, hlast] at h1
        rw [if_neg hgap] at h1
        constructor
        · intro hcon
          rcases hcon with hcon | hcon
          · exact absurd hcon hne
          · exact absurd hcon (fun hh => hgap (hcond.mpr hh))
        · intro _
          exact h1.symm

/-- C7 witness: the amended theorem applied to the genesis state, which is
reachable with monotone block times. -/
theorem C7_signatory_invariants_witness :
    List.Chain' (fun a b => a.time ≤ b.time) (genesisState []).signatory_sets ∧
    List.Chain' (fun a b => a.time + SIGNATORY_CHANGE_INTERVAL ≤ b.time)
      (genesisState []).signatory_sets ∧
    (∀ t st' v', run envCE (genesisState []) (Action.BeginBlock t) []
        = (st', v', Res.ok) →
      st'.signatory_sets ≠ []) ∧
    (∀ a st' v' r, run envCE (genesisState []) a [] = (st', v', r) →
      (genesisState []).signatory_sets ≠ [] → st'.signatory_sets ≠ []) ∧
    (∀ t st' v', monoOk (genesisState []) (Action.BeginBlock t) →
      run envCE (genesisState []) (Action.BeginBlock t) []
        = (st', v', Res.ok) →
      (((genesisState []).signatory_sets = [] ∨
          lastSnapTime (genesisState []) + SIGNATORY_CHANGE_INTERVAL ≤ wrap t) →
        st'.signatory_sets.length
          = (genesisState []).signatory_sets.length + 1) ∧
      (((genesisState []).signatory_sets ≠ [] ∧
          ¬ lastSnapTime (genesisState []) + SIGNATORY_CHANGE_INTERVAL
            ≤ wrap t) →
        st' = genesisState [])) :=
  C7_signatory_invariants envCE (genesisState []) []
    (ReachableMono.genesis [] [])

end Nomic
